import Mathlib

/-!
Verification of the land/sea-fraction weighting preprocessor
(`esmvalcore/preprocessor/_weighting.py`).

The module is embedded shallowly:

* an n-dimensional array (`numpy`/`dask` array) is a shape, a dtype tag and a
  flat row-major data list of exact rationals;
* an iris cube is a variable name together with its data array;
* the `fx_files` dictionary is an association list from variable names to an
  optional cube — `none` models a missing/empty path, `some c` models a path
  whose `iris.load_cube` yields `c` (the loader is an external collaborator);
* raising `TypeError` / `ValueError` is modelled by `Except.error`, and the
  single `logger.debug` call is modelled by returning the list of emitted
  debug messages next to the resulting cube;
* elementwise arithmetic with numpy-style trailing-dimension broadcasting is
  spelled out (`broadcastShape`, `bget`, `ndMul`); true division by the float
  `100.0` and the subtraction `1.0 - x` always yield a float-typed array, and
  a product is float-typed as soon as one operand is.
-/

/-- Numeric dtype of an array: integer or floating point. -/
inductive DType where
  | int : DType
  | float : DType
deriving DecidableEq

/-- An n-dimensional numeric array: a shape, a dtype and the flat row-major
data.  Exact rationals stand in for the floating-point values. -/
structure NDArray where
  shape : List Nat
  dtype : DType
  data : List Rat
deriving DecidableEq

/-- An iris cube: an identifying variable name plus its data array. -/
structure Cube where
  var_name : String
  arr : NDArray
deriving DecidableEq

/-- The two exceptions `weighting_landsea_fraction` can raise:
`TypeError` for a bad `area_type` and `ValueError` when strict weighting
is impossible. -/
inductive WeightError where
  | typeError : String → WeightError
  | valueError : String → WeightError
deriving DecidableEq

/-- Observable outcome of `weighting_landsea_fraction`: either a raised
exception, or a returned cube together with the debug log messages emitted
during the call. -/
inductive WeightResult where
  | raised : WeightError → WeightResult
  | ok : Cube → List String → WeightResult
deriving DecidableEq

/-- `_shape_is_broadcastable(shape_1, shape_2)`: zip the two shapes from the
right and require every overlapping pair of dimensions to be equal or to
contain a 1. -/
def _shape_is_broadcastable (shape_1 shape_2 : List Nat) : Bool :=
  (shape_1.reverse.zip shape_2.reverse).all fun p => p.1 == p.2 || p.1 == 1 || p.2 == 1

/-- Broadcast-result shape on reversed (rightmost-first) shapes: the longer
shape, with a size-1 dimension replaced by the other operand's size on the
overlap (numpy's rule for compatible dimension pairs). -/
def bcastRev : List Nat → List Nat → List Nat
  | [], ys => ys
  | xs, [] => xs
  | x :: xs, y :: ys => (if x = 1 then y else x) :: bcastRev xs ys

/-- numpy broadcast-result shape of two shapes (in standard order). -/
def broadcastShape (s1 s2 : List Nat) : List Nat :=
  (bcastRev s1.reverse s2.reverse).reverse

/-- All multi-indices of a shape, enumerated in row-major order. -/
def allIndices : List Nat → List (List Nat)
  | [] => [[]]
  | n :: rest => (List.range n).flatMap fun i => (allIndices rest).map fun idx => i :: idx

/-- Row-major linear index, computed on the reversed shape and reversed
multi-index (rightmost dimension has stride 1). -/
def flatIndexRev : List Nat → List Nat → Nat
  | [], _ => 0
  | _ :: _, [] => 0
  | n :: rest, i :: irest => i + n * flatIndexRev rest irest

/-- Broadcast-aware element lookup: align the multi-index with the array's
shape at the right, send every size-1 dimension to coordinate 0 (numpy
repeats it), drop the extra leading coordinates, and read the flat data. -/
def bget (a : NDArray) (idx : List Nat) : Rat :=
  let ridx := (a.shape.reverse.zip idx.reverse).map fun p => if p.1 = 1 then 0 else p.2
  a.data.getD (flatIndexRev a.shape.reverse ridx) 0

/-- Elementwise broadcasting product of two arrays (numpy `*`): the result
has the broadcast shape, is float-typed as soon as one operand is, and its
row-major data is the product of the broadcast-sampled operands. -/
def ndMul (a b : NDArray) : NDArray :=
  { shape := broadcastShape a.shape b.shape
    dtype := if a.dtype = DType.float ∨ b.dtype = DType.float then DType.float else DType.int
    data := (allIndices (broadcastShape a.shape b.shape)).map fun idx => bget a idx * bget b idx }

/-- `array / 100.0`: elementwise true division, always float-typed. -/
def ndDiv100 (a : NDArray) : NDArray :=
  { shape := a.shape, dtype := DType.float, data := a.data.map fun x => x / 100 }

/-- `1.0 - array`: elementwise subtraction from the float `1.0`, always
float-typed. -/
def ndOneMinus (a : NDArray) : NDArray :=
  { shape := a.shape, dtype := DType.float, data := a.data.map fun x => 1 - x }

/-- Python `repr` of a shape tuple, as interpolated into the f-strings. -/
def shapeRepr : List Nat → String
  | [] => "()"
  | [n] => "(" ++ toString n ++ ",)"
  | s => "(" ++ String.intercalate ", " (s.map toString) ++ ")"

/-- Diagnostic recorded for an entry whose path is empty/missing. -/
def msgFileNotFound (fx_var : String) : String :=
  "File for '" ++ fx_var ++ "' not found."

/-- Diagnostic recorded for a loaded fx cube whose shape is not
broadcastable to the target cube's shape. -/
def msgNotBroadcastable (fx_var : String) (fx_shape : List Nat) (cube : Cube) : String :=
  "Cube '" ++ fx_var ++ "' with shape " ++ shapeRepr fx_shape ++
    " not broadcastable to cube '" ++ cube.var_name ++ "' with shape " ++
    shapeRepr cube.arr.shape ++ "."

/-- Diagnostic recorded for an identifier other than `sftlf`/`sftof`. -/
def msgBadVar (fx_var : String) : String :=
  "Cannot calculate land fraction from '" ++ fx_var ++ "', expected 'sftlf' or 'sftof'."

/-- The `for (fx_var, fx_path) in fx_files.items()` loop of
`_get_land_fraction`, with the accumulated `errors` list threaded through;
the `for`/`else` yields `none` when the loop finishes without `break`. -/
def landFractionLoop (cube : Cube) : List (String × Option Cube) → List String →
    Option NDArray × List String
  | [], errors => (none, errors)
  | (fx_var, none) :: rest, errors =>
      landFractionLoop cube rest (errors ++ [msgFileNotFound fx_var])
  | (fx_var, some fx_cube) :: rest, errors =>
      if !_shape_is_broadcastable fx_cube.arr.shape cube.arr.shape then
        landFractionLoop cube rest (errors ++ [msgNotBroadcastable fx_var fx_cube.arr.shape cube])
      else if fx_var = "sftlf" then (some (ndDiv100 fx_cube.arr), errors)
      else if fx_var = "sftof" then (some (ndOneMinus (ndDiv100 fx_cube.arr)), errors)
      else landFractionLoop cube rest (errors ++ [msgBadVar fx_var])

/-- `_get_land_fraction(cube, fx_files)`: record "No fx files given." when the
mapping is empty, then run the candidate loop; returns the optional land
fraction together with the accumulated error log. -/
def _get_land_fraction (cube : Cube) (fx_files : List (String × Option Cube)) :
    Option NDArray × List String :=
  landFractionLoop cube fx_files (if fx_files.isEmpty then ["No fx files given."] else [])

/-- Message of the `ValueError` raised when strict weighting is impossible. -/
def msgWeightingNotPossible (errors : List String) : String :=
  "Weighting with land/sea fraction is not possible, the following errors occured: " ++
    String.intercalate " " errors

/-- The formatted `logger.debug` message emitted when non-strict weighting
is skipped. -/
def msgDebugSkip (cube : Cube) (area_type : String) (errors : List String) : String :=
  "Weighting of '" ++ cube.var_name ++ "' with '" ++ area_type ++
    "' fraction not possible because of the following problems: " ++
    String.intercalate " " errors

/-- `weighting_landsea_fraction(cube, fx_files, area_type, strict)`.

The value is `WeightResult.raised` for a raised `TypeError`/`ValueError`, and
otherwise `WeightResult.ok (returned cube) (debug log messages emitted)`. -/
def weighting_landsea_fraction (cube : Cube) (fx_files : List (String × Option Cube))
    (area_type : String) (strict : Bool) : WeightResult :=
  if ¬ (area_type = "land" ∨ area_type = "sea") then
    WeightResult.raised (WeightError.typeError
      ("Expected 'land' or 'sea' for area_type, got '" ++ area_type ++ "'"))
  else
    match _get_land_fraction cube fx_files with
    | (none, errors) =>
        if strict then
          WeightResult.raised (WeightError.valueError (msgWeightingNotPossible errors))
        else
          WeightResult.ok cube [msgDebugSkip cube area_type errors]
    | (some land_fraction, _) =>
        let core_data := cube.arr
        let arr1 := if area_type = "land" then ndMul core_data land_fraction else core_data
        let arr2 := if area_type = "sea" then ndMul core_data (ndOneMinus land_fraction)
          else arr1
        WeightResult.ok { cube with arr := arr2 } []

/-- A candidate entry of `fx_files` is valid for the target cube when its
source is present, the loaded cube's shape is broadcastable to the target
shape and its identifier is `sftlf` or `sftof` — exactly the conditions
under which the resolution loop breaks on that entry. -/
def validCand (cube : Cube) (e : String × Option Cube) : Prop :=
  ∃ c, e.2 = some c ∧ _shape_is_broadcastable c.arr.shape cube.arr.shape = true ∧
    (e.1 = "sftlf" ∨ e.1 = "sftof")

/-- Sample target cube used to instantiate the universally quantified
theorems on concrete inputs. -/
def tasCube : Cube := ⟨"tas", ⟨[2, 3], DType.float, [1, 2, 3, 4, 5, 6]⟩⟩

/-- Sample land-area-fraction (percent) fx cube. -/
def sftlfCube : Cube := ⟨"sftlf", ⟨[2, 3], DType.int, [0, 25, 50, 75, 100, 50]⟩⟩

/-- Sample sea-area-fraction (percent) fx cube. -/
def sftofCube : Cube := ⟨"sftof", ⟨[2, 3], DType.int, [100, 75, 50, 25, 0, 50]⟩⟩

/-- Sample integer-typed target cube. -/
def intCube : Cube := ⟨"pr", ⟨[2], DType.int, [2, 4]⟩⟩

/-- Sample fx cube with the same shape as `intCube`. -/
def sftlfSmall : Cube := ⟨"sftlf", ⟨[2], DType.int, [50, 100]⟩⟩

/-- Sample fx cube of strictly higher rank than `intCube`. -/
def sftlfBig : Cube := ⟨"sftlf", ⟨[2, 2], DType.int, [50, 100, 50, 100]⟩⟩

/-- A right-aligned zip of two dimension lists satisfies the compatibility
predicate on every overlapping pair iff, reading both lists with default 1
beyond their length, every position is equal or contains a 1. -/
theorem all_compat_iff_getD (r1 r2 : List Nat) :
    ((r1.zip r2).all fun p => p.1 == p.2 || p.1 == 1 || p.2 == 1) = true ↔
      ∀ i, r1.getD i 1 = r2.getD i 1 ∨ r1.getD i 1 = 1 ∨ r2.getD i 1 = 1 := by
  induction r1 generalizing r2 with
  | nil => simp [List.getD_nil]
  | cons x xs ih =>
    cases r2 with
    | nil => simp [List.getD_nil]
    | cons y ys =>
      simp only [List.zip_cons_cons, List.all_cons, Bool.and_eq_true, ih,
        Bool.or_eq_true, beq_iff_eq]
      constructor
      · rintro ⟨h0, h⟩ i
        cases i with
        | zero => simpa [or_assoc] using h0
        | succ j => simpa using h j
      · intro h
        refine ⟨by simpa [or_assoc] using h 0, fun j => by simpa using h (j + 1)⟩

/-- Claim C7: the shape-compatibility check accepts a pair of shapes exactly
when, aligning them at their rightmost dimension and implicitly padding the
shorter one with size-1 dimensions on the left, every overlapping pair of
dimensions is equal or has a member equal to 1. -/
theorem C7_broadcastable_characterization (s1 s2 : List Nat) :
    _shape_is_broadcastable s1 s2 = true ↔
      ∀ i, s1.reverse.getD i 1 = s2.reverse.getD i 1 ∨ s1.reverse.getD i 1 = 1 ∨
        s2.reverse.getD i 1 = 1 :=
  all_compat_iff_getD s1.reverse s2.reverse

/-- Claim C10: a candidate fraction field whose shape is the target's shape
with extra leading dimensions prepended passes the shape-compatibility check,
and such a higher-rank `sftlf` candidate wins resolution. -/
theorem C10_extra_leading_dims (s p : List Nat) (_hp : p ≠ []) (cube fx_cube : Cube)
    (hcs : cube.arr.shape = s) (hfs : fx_cube.arr.shape = p ++ s) :
    _shape_is_broadcastable (p ++ s) s = true ∧
    _get_land_fraction cube [("sftlf", some fx_cube)] =
      (some (ndDiv100 fx_cube.arr), []) := by
  have hb : _shape_is_broadcastable (p ++ s) s = true := by
    unfold _shape_is_broadcastable
    rw [all_compat_iff_getD]
    intro i
    rw [List.reverse_append]
    by_cases hi : i < s.reverse.length
    · left
      rw [List.getD_append _ _ _ _ hi]
    · right; right
      exact List.getD_eq_default _ _ (Nat.le_of_not_lt hi)
  have hb2 : _shape_is_broadcastable fx_cube.arr.shape cube.arr.shape = true := by
    rw [hcs, hfs]; exact hb
  refine ⟨hb, ?_⟩
  simp [_get_land_fraction, landFractionLoop, hb2]

/-- Witness for C10: a rank-2 `sftlf` cube of shape `[2, 2]` against the
rank-1 target `intCube` of shape `[2]`. -/
theorem C10_extra_leading_dims_witness :
    _shape_is_broadcastable ([2] ++ [2]) [2] = true ∧
    _get_land_fraction intCube [("sftlf", some sftlfBig)] =
      (some (ndDiv100 sftlfBig.arr), []) :=
  C10_extra_leading_dims [2] [2] (by decide) intCube sftlfBig rfl rfl

/-- Claim C4: any `area_type` other than exactly land or sea raises
`TypeError` with the same message for every `fx_files` and `strict` value
(the result does not depend on them: no resolution work happens). -/
theorem C4_invalid_area_type (cube : Cube) (fx_files : List (String × Option Cube))
    (area_type : String) (strict : Bool)
    (h1 : area_type ≠ "land") (h2 : area_type ≠ "sea") :
    weighting_landsea_fraction cube fx_files area_type strict =
      WeightResult.raised (WeightError.typeError
        ("Expected 'land' or 'sea' for area_type, got '" ++ area_type ++ "'")) := by
  simp [weighting_landsea_fraction, h1, h2]

/-- Witness for C4 at `area_type = "ocean"`. -/
theorem C4_invalid_area_type_witness :
    weighting_landsea_fraction tasCube [("sftlf", some sftlfCube)] "ocean" true =
      WeightResult.raised (WeightError.typeError
        ("Expected 'land' or 'sea' for area_type, got '" ++ "ocean" ++ "'")) :=
  C4_invalid_area_type tasCube [("sftlf", some sftlfCube)] "ocean" true
    (by decide) (by decide)

/-- With a valid `area_type`, strict mode and an absent fraction, the call
raises `ValueError` with the joined diagnostics. -/
theorem weighting_absent_strict (cube : Cube) (fx_files : List (String × Option Cube))
    (area_type : String) (hval : area_type = "land" ∨ area_type = "sea")
    (habs : (_get_land_fraction cube fx_files).1 = none) :
    weighting_landsea_fraction cube fx_files area_type true =
      WeightResult.raised (WeightError.valueError
        (msgWeightingNotPossible (_get_land_fraction cube fx_files).2)) := by
  rcases h : _get_land_fraction cube fx_files with ⟨lf, errs⟩
  rw [h] at habs
  cases lf with
  | none =>
    rcases hval with hv | hv <;> subst hv <;> simp [weighting_landsea_fraction, h]
  | some f => simp at habs

/-- With a valid `area_type`, non-strict mode and an absent fraction, the
call logs the debug message and returns the cube unchanged. -/
theorem weighting_absent_nonstrict (cube : Cube) (fx_files : List (String × Option Cube))
    (area_type : String) (hval : area_type = "land" ∨ area_type = "sea")
    (habs : (_get_land_fraction cube fx_files).1 = none) :
    weighting_landsea_fraction cube fx_files area_type false =
      WeightResult.ok cube [msgDebugSkip cube area_type (_get_land_fraction cube fx_files).2] := by
  rcases h : _get_land_fraction cube fx_files with ⟨lf, errs⟩
  rw [h] at habs
  cases lf with
  | none =>
    rcases hval with hv | hv <;> subst hv <;> simp [weighting_landsea_fraction, h]
  | some f => simp at habs

/-- When resolution yields a fraction, weighting by land multiplies the
target data by the fraction. -/
theorem weighting_some_land (cube : Cube) (fx_files : List (String × Option Cube))
    (strict : Bool) (f : NDArray) (errs : List String)
    (hres : _get_land_fraction cube fx_files = (some f, errs)) :
    weighting_landsea_fraction cube fx_files "land" strict =
      WeightResult.ok { cube with arr := ndMul cube.arr f } [] := by
  simp [weighting_landsea_fraction, hres]

/-- When resolution yields a fraction, weighting by sea multiplies the
target data by one minus the fraction. -/
theorem weighting_some_sea (cube : Cube) (fx_files : List (String × Option Cube))
    (strict : Bool) (f : NDArray) (errs : List String)
    (hres : _get_land_fraction cube fx_files = (some f, errs)) :
    weighting_landsea_fraction cube fx_files "sea" strict =
      WeightResult.ok { cube with arr := ndMul cube.arr (ndOneMinus f) } [] := by
  simp [weighting_landsea_fraction, hres]

/-- Claim C3: with a valid `area_type`, a `ValueError` is raised iff
`strict` is true and resolution yielded no fraction; the raised message is
the fixed explanation prefix followed by all accumulated diagnostics joined
by spaces.  Individual candidate failures never raise on their own. -/
theorem C3_strict_raise_iff (cube : Cube) (fx_files : List (String × Option Cube))
    (area_type : String) (strict : Bool)
    (hval : area_type = "land" ∨ area_type = "sea") :
    ((∃ msg, weighting_landsea_fraction cube fx_files area_type strict =
        WeightResult.raised (WeightError.valueError msg)) ↔
      strict = true ∧ (_get_land_fraction cube fx_files).1 = none) ∧
    (strict = true → (_get_land_fraction cube fx_files).1 = none →
      weighting_landsea_fraction cube fx_files area_type strict =
        WeightResult.raised (WeightError.valueError
          (msgWeightingNotPossible (_get_land_fraction cube fx_files).2))) := by
  rcases h : _get_land_fraction cube fx_files with ⟨lf, errs⟩
  cases lf with
  | none =>
    cases strict with
    | true =>
      rcases hval with hv | hv <;> subst hv <;> simp [weighting_landsea_fraction, h]
    | false =>
      rcases hval with hv | hv <;> subst hv <;> simp [weighting_landsea_fraction, h]
  | some f =>
    rcases hval with hv | hv <;> subst hv <;> simp [weighting_landsea_fraction, h]

/-- Witness for C3 with an empty `fx_files` mapping and `strict = true`. -/
theorem C3_strict_raise_iff_witness :
    ((∃ msg, weighting_landsea_fraction tasCube [] "land" true =
        WeightResult.raised (WeightError.valueError msg)) ↔
      true = true ∧ (_get_land_fraction tasCube []).1 = none) ∧
    (true = true → (_get_land_fraction tasCube []).1 = none →
      weighting_landsea_fraction tasCube [] "land" true =
        WeightResult.raised (WeightError.valueError
          (msgWeightingNotPossible (_get_land_fraction tasCube []).2))) :=
  C3_strict_raise_iff tasCube [] "land" true (Or.inl rfl)

/-- Claim C5: with a valid `area_type`, `strict = false` and an absent
fraction, the call returns the very same cube unmodified and emits exactly
one debug log entry containing the cube's name, the area type and the
space-joined diagnostics. -/
theorem C5_nonstrict_unmodified (cube : Cube) (fx_files : List (String × Option Cube))
    (area_type : String) (hval : area_type = "land" ∨ area_type = "sea")
    (habs : (_get_land_fraction cube fx_files).1 = none) :
    weighting_landsea_fraction cube fx_files area_type false =
      WeightResult.ok cube
        ["Weighting of '" ++ cube.var_name ++ "' with '" ++ area_type ++
          "' fraction not possible because of the following problems: " ++
          String.intercalate " " (_get_land_fraction cube fx_files).2] := by
  simpa [msgDebugSkip] using weighting_absent_nonstrict cube fx_files area_type hval habs

/-- Witness for C5 with an empty `fx_files` mapping and `area_type = "sea"`. -/
theorem C5_nonstrict_unmodified_witness :
    weighting_landsea_fraction tasCube [] "sea" false =
      WeightResult.ok tasCube
        ["Weighting of '" ++ tasCube.var_name ++ "' with '" ++ "sea" ++
          "' fraction not possible because of the following problems: " ++
          String.intercalate " " (_get_land_fraction tasCube []).2] :=
  C5_nonstrict_unmodified tasCube [] "sea" (Or.inr rfl) rfl

/-- When the resolution loop succeeds, the returned fraction comes from a
present, shape-compatible entry with identifier `sftlf` or `sftof`, by the
corresponding formula. -/
theorem landFractionLoop_some (cube : Cube) (l : List (String × Option Cube))
    (errs0 errs : List String) (f : NDArray)
    (h : landFractionLoop cube l errs0 = (some f, errs)) :
    ∃ fx_var fx_cube, (fx_var, some fx_cube) ∈ l ∧
      _shape_is_broadcastable fx_cube.arr.shape cube.arr.shape = true ∧
      ((fx_var = "sftlf" ∧ f = ndDiv100 fx_cube.arr) ∨
       (fx_var = "sftof" ∧ f = ndOneMinus (ndDiv100 fx_cube.arr))) := by
  induction l generalizing errs0 with
  | nil => simp [landFractionLoop] at h
  | cons e rest ih =>
    rcases e with ⟨v, fc⟩
    cases fc with
    | none =>
      rw [landFractionLoop] at h
      obtain ⟨fx_var, fx_cube, hmem, hrest⟩ := ih _ h
      exact ⟨fx_var, fx_cube, List.mem_cons_of_mem _ hmem, hrest⟩
    | some c =>
      rw [landFractionLoop] at h
      by_cases hb : _shape_is_broadcastable c.arr.shape cube.arr.shape = true
      · rw [hb] at h
        by_cases hv1 : v = "sftlf"
        · rw [if_pos hv1] at h
          simp only [Bool.not_true, Bool.false_eq_true, if_false, Prod.mk.injEq,
            Option.some.injEq] at h
          exact ⟨v, c, List.mem_cons_self _ _, hb, Or.inl ⟨hv1, h.1.symm⟩⟩
        · by_cases hv2 : v = "sftof"
          · rw [if_neg hv1, if_pos hv2] at h
            simp only [Bool.not_true, Bool.false_eq_true, if_false, Prod.mk.injEq,
              Option.some.injEq] at h
            exact ⟨v, c, List.mem_cons_self _ _, hb, Or.inr ⟨hv2, h.1.symm⟩⟩
          · rw [if_neg hv1, if_neg hv2] at h
            simp only [Bool.not_true, Bool.false_eq_true, if_false] at h
            obtain ⟨fx_var, fx_cube, hmem, hrest⟩ := ih _ h
            exact ⟨fx_var, fx_cube, List.mem_cons_of_mem _ hmem, hrest⟩
      · have hb' : _shape_is_broadcastable c.arr.shape cube.arr.shape = false := by
          simpa using hb
        rw [hb'] at h
        simp only [Bool.not_false, if_true] at h
        obtain ⟨fx_var, fx_cube, hmem, hrest⟩ := ih _ h
        exact ⟨fx_var, fx_cube, List.mem_cons_of_mem _ hmem, hrest⟩

/-- Claim C1: whenever resolution succeeds, the fraction was computed from a
shape-compatible winning candidate as `data / 100` (`sftlf`) or
`1 - data / 100` (`sftof`), and weighting replaces the target data by
`data * fraction` for land and `data * (1 - fraction)` for sea. -/
theorem C1_fraction_and_weighting (cube : Cube) (fx_files : List (String × Option Cube))
    (strict : Bool) (f : NDArray) (errs : List String)
    (hres : _get_land_fraction cube fx_files = (some f, errs)) :
    (∃ fx_var fx_cube, (fx_var, some fx_cube) ∈ fx_files ∧
        _shape_is_broadcastable fx_cube.arr.shape cube.arr.shape = true ∧
        ((fx_var = "sftlf" ∧ f = ndDiv100 fx_cube.arr) ∨
         (fx_var = "sftof" ∧ f = ndOneMinus (ndDiv100 fx_cube.arr)))) ∧
    weighting_landsea_fraction cube fx_files "land" strict =
      WeightResult.ok { cube with arr := ndMul cube.arr f } [] ∧
    weighting_landsea_fraction cube fx_files "sea" strict =
      WeightResult.ok { cube with arr := ndMul cube.arr (ndOneMinus f) } [] :=
  ⟨landFractionLoop_some cube fx_files _ errs f hres,
   weighting_some_land cube fx_files strict f errs hres,
   weighting_some_sea cube fx_files strict f errs hres⟩

/-- Witness for C1 with a valid `sftlf` candidate over `tasCube`. -/
theorem C1_fraction_and_weighting_witness :
    (∃ fx_var fx_cube, (fx_var, some fx_cube) ∈ [("sftlf", some sftlfCube)] ∧
        _shape_is_broadcastable fx_cube.arr.shape tasCube.arr.shape = true ∧
        ((fx_var = "sftlf" ∧ ndDiv100 sftlfCube.arr = ndDiv100 fx_cube.arr) ∨
         (fx_var = "sftof" ∧ ndDiv100 sftlfCube.arr = ndOneMinus (ndDiv100 fx_cube.arr)))) ∧
    weighting_landsea_fraction tasCube [("sftlf", some sftlfCube)] "land" true =
      WeightResult.ok { tasCube with arr := ndMul tasCube.arr (ndDiv100 sftlfCube.arr) } [] ∧
    weighting_landsea_fraction tasCube [("sftlf", some sftlfCube)] "sea" true =
      WeightResult.ok
        { tasCube with arr := ndMul tasCube.arr (ndOneMinus (ndDiv100 sftlfCube.arr)) } [] :=
  C1_fraction_and_weighting tasCube [("sftlf", some sftlfCube)] true
    (ndDiv100 sftlfCube.arr) [] rfl

/-- An invalid candidate entry only appends one diagnostic and hands the
loop over to the remaining entries. -/
theorem loop_skip (cube : Cube) (e : String × Option Cube) (hne : ¬ validCand cube e) :
    ∃ m, ∀ l errs,
      landFractionLoop cube (e :: l) errs = landFractionLoop cube l (errs ++ [m]) := by
  rcases e with ⟨v, fc⟩
  cases fc with
  | none => exact ⟨msgFileNotFound v, fun l errs => rfl⟩
  | some c =>
    by_cases hb : _shape_is_broadcastable c.arr.shape cube.arr.shape = true
    · have hv1 : v ≠ "sftlf" := fun hv => hne ⟨c, rfl, hb, Or.inl hv⟩
      have hv2 : v ≠ "sftof" := fun hv => hne ⟨c, rfl, hb, Or.inr hv⟩
      exact ⟨msgBadVar v, fun l errs => by simp [landFractionLoop, hb, hv1, hv2]⟩
    · have hb' : _shape_is_broadcastable c.arr.shape cube.arr.shape = false := by
        simpa using hb
      exact ⟨msgNotBroadcastable v c.arr.shape cube, fun l errs => by
        simp [landFractionLoop, hb']⟩

/-- A prefix of invalid candidates only appends its diagnostics, in order,
before the loop continues with the remaining entries. -/
theorem loop_skip_all (cube : Cube) (pre : List (String × Option Cube))
    (hpre : ∀ e ∈ pre, ¬ validCand cube e) :
    ∃ ms, ∀ l errs,
      landFractionLoop cube (pre ++ l) errs = landFractionLoop cube l (errs ++ ms) := by
  induction pre with
  | nil => exact ⟨[], fun l errs => by simp⟩
  | cons e pre ih =>
    obtain ⟨m, hm⟩ := loop_skip cube e (hpre e (List.mem_cons_self e pre))
    obtain ⟨ms, hms⟩ := ih fun x hx => hpre x (List.mem_cons_of_mem e hx)
    refine ⟨m :: ms, fun l errs => ?_⟩
    rw [List.cons_append, hm, hms]
    congr 1
    simp

/-- Claim C6: resolution scans the entries in order and the first valid
candidate (present source, compatible shape, identifier `sftlf`/`sftof`)
wins with the identifier's formula; entries after the winner are never
examined (the result is the same for every continuation of the list). -/
theorem C6_first_valid_wins (cube : Cube) (pre post post' : List (String × Option Cube))
    (fx_var : String) (fx_cube : Cube)
    (hpre : ∀ e ∈ pre, ¬ validCand cube e)
    (hb : _shape_is_broadcastable fx_cube.arr.shape cube.arr.shape = true)
    (hid : fx_var = "sftlf" ∨ fx_var = "sftof") :
    (_get_land_fraction cube (pre ++ (fx_var, some fx_cube) :: post)).1 =
      some (if fx_var = "sftlf" then ndDiv100 fx_cube.arr
        else ndOneMinus (ndDiv100 fx_cube.arr)) ∧
    _get_land_fraction cube (pre ++ (fx_var, some fx_cube) :: post) =
      _get_land_fraction cube (pre ++ (fx_var, some fx_cube) :: post') := by
  obtain ⟨ms, hms⟩ := loop_skip_all cube pre hpre
  have hne : ∀ (l : List (String × Option Cube)),
      (pre ++ (fx_var, some fx_cube) :: l).isEmpty = false := by
    intro l
    cases pre <;> simp
  have hhead : ∀ (l : List (String × Option Cube)) (errs : List String),
      landFractionLoop cube ((fx_var, some fx_cube) :: l) errs =
        (some (if fx_var = "sftlf" then ndDiv100 fx_cube.arr
          else ndOneMinus (ndDiv100 fx_cube.arr)), errs) := by
    intro l errs
    rcases hid with hv | hv <;> subst hv <;> simp [landFractionLoop, hb]
  unfold _get_land_fraction
  simp only [hne, Bool.false_eq_true, if_false]
  rw [hms, hms, hhead, hhead]
  exact ⟨rfl, rfl⟩

/-- Witness for C6: `sftlf` first and valid, `sftof` second; the `sftlf`
fraction wins and the trailing `sftof` entry is irrelevant. -/
theorem C6_first_valid_wins_witness :
    (_get_land_fraction tasCube
        ([] ++ ("sftlf", some sftlfCube) :: [("sftof", some sftofCube)])).1 =
      some (if "sftlf" = "sftlf" then ndDiv100 sftlfCube.arr
        else ndOneMinus (ndDiv100 sftlfCube.arr)) ∧
    _get_land_fraction tasCube
        ([] ++ ("sftlf", some sftlfCube) :: [("sftof", some sftofCube)]) =
      _get_land_fraction tasCube ([] ++ ("sftlf", some sftlfCube) :: []) :=
  C6_first_valid_wins tasCube [] [("sftof", some sftofCube)] [] "sftlf" sftlfCube
    (fun e he => absurd he (List.not_mem_nil e)) rfl (Or.inl rfl)

/-- Claim C8 counterexample: with a missing-source candidate followed by a
valid `sftlf` candidate, resolution succeeds with a nonempty diagnostic log,
yet the outcome neither raises nor logs anything — the diagnostics are
discarded, not attached to the final outcome. -/
theorem C8_counterexample :
    (_get_land_fraction tasCube [("sftof", none), ("sftlf", some sftlfCube)]).2 =
      [msgFileNotFound "sftof"] ∧
    [msgFileNotFound "sftof"] ≠ ([] : List String) ∧
    weighting_landsea_fraction tasCube [("sftof", none), ("sftlf", some sftlfCube)]
        "land" true =
      WeightResult.ok { tasCube with arr := ndMul tasCube.arr (ndDiv100 sftlfCube.arr) } [] := by
  refine ⟨rfl, ?_, rfl⟩
  simp

/-- Claim C8 (amended): the accumulated diagnostics are attached to the
outcome whenever resolution yields no usable fraction — surfaced in the
raised `ValueError` in strict mode, logged in the debug entry in non-strict
mode; when resolution succeeds, earlier candidates' diagnostics are
discarded. -/
theorem C8_amended_diagnostics_on_absent (cube : Cube)
    (fx_files : List (String × Option Cube)) (area_type : String)
    (hval : area_type = "land" ∨ area_type = "sea")
    (habs : (_get_land_fraction cube fx_files).1 = none) :
    weighting_landsea_fraction cube fx_files area_type true =
      WeightResult.raised (WeightError.valueError
        (msgWeightingNotPossible (_get_land_fraction cube fx_files).2)) ∧
    weighting_landsea_fraction cube fx_files area_type false =
      WeightResult.ok cube [msgDebugSkip cube area_type (_get_land_fraction cube fx_files).2] :=
  ⟨weighting_absent_strict cube fx_files area_type hval habs,
   weighting_absent_nonstrict cube fx_files area_type hval habs⟩

/-- Witness for the amended C8 with one missing-source candidate. -/
theorem C8_amended_diagnostics_on_absent_witness :
    weighting_landsea_fraction tasCube [("sftof", none)] "land" true =
      WeightResult.raised (WeightError.valueError
        (msgWeightingNotPossible (_get_land_fraction tasCube [("sftof", none)]).2)) ∧
    weighting_landsea_fraction tasCube [("sftof", none)] "land" false =
      WeightResult.ok tasCube
        [msgDebugSkip tasCube "land" (_get_land_fraction tasCube [("sftof", none)]).2] :=
  C8_amended_diagnostics_on_absent tasCube [("sftof", none)] "land" (Or.inl rfl) rfl

/-- Claim C2 counterexample: weighting the integer-typed `intCube` by a
same-shape `sftlf` fraction changes the data dtype from int to float, and a
higher-rank fraction changes the data shape from `[2]` to `[2, 2]`. -/
theorem C2_counterexample :
    weighting_landsea_fraction intCube [("sftlf", some sftlfSmall)] "land" true =
      WeightResult.ok { intCube with arr := ndMul intCube.arr (ndDiv100 sftlfSmall.arr) } [] ∧
    (ndMul intCube.arr (ndDiv100 sftlfSmall.arr)).dtype = DType.float ∧
    intCube.arr.dtype = DType.int ∧
    weighting_landsea_fraction intCube [("sftlf", some sftlfBig)] "land" true =
      WeightResult.ok { intCube with arr := ndMul intCube.arr (ndDiv100 sftlfBig.arr) } [] ∧
    (ndMul intCube.arr (ndDiv100 sftlfBig.arr)).shape = [2, 2] ∧
    intCube.arr.shape = [2] :=
  ⟨rfl, rfl, rfl, rfl, rfl, rfl⟩

/-- Claim C2 (amended): when weighting is applied and the resolved
fraction's shape broadcasts to exactly the target's shape, the data shape is
preserved; the resulting data dtype is always float, hence preserved exactly
for float-typed targets and changed for integer-typed ones.  The cube's
name is untouched. -/
theorem C2_amended_shape_dtype (cube : Cube) (fx_files : List (String × Option Cube))
    (area_type : String) (strict : Bool) (f : NDArray) (errs : List String)
    (hval : area_type = "land" ∨ area_type = "sea")
    (hres : _get_land_fraction cube fx_files = (some f, errs))
    (hsh : broadcastShape cube.arr.shape f.shape = cube.arr.shape) :
    ∃ arr2 : NDArray,
      weighting_landsea_fraction cube fx_files area_type strict =
        WeightResult.ok { cube with arr := arr2 } [] ∧
      arr2.shape = cube.arr.shape ∧ arr2.dtype = DType.float := by
  have hf : f.dtype = DType.float := by
    obtain ⟨v, c, hmem, hb, hcase⟩ := landFractionLoop_some cube fx_files _ errs f hres
    rcases hcase with ⟨hv, hfe⟩ | ⟨hv, hfe⟩ <;> rw [hfe] <;> rfl
  rcases hval with hv | hv <;> subst hv
  · refine ⟨ndMul cube.arr f, weighting_some_land cube fx_files strict f errs hres, ?_, ?_⟩
    · simpa [ndMul] using hsh
    · simp [ndMul, hf]
  · refine ⟨ndMul cube.arr (ndOneMinus f),
      weighting_some_sea cube fx_files strict f errs hres, ?_, ?_⟩
    · simpa [ndMul, ndOneMinus] using hsh
    · simp [ndMul, ndOneMinus]

/-- Witness for the amended C2 with a same-shape `sftof` candidate. -/
theorem C2_amended_shape_dtype_witness :
    ∃ arr2 : NDArray,
      weighting_landsea_fraction tasCube [("sftof", some sftofCube)] "sea" true =
        WeightResult.ok { tasCube with arr := arr2 } [] ∧
      arr2.shape = tasCube.arr.shape ∧ arr2.dtype = DType.float :=
  C2_amended_shape_dtype tasCube [("sftof", some sftofCube)] "sea" true
    (ndOneMinus (ndDiv100 sftofCube.arr)) [] (Or.inr rfl) rfl rfl

/-- Zipping truncates the longer list: only the first `l1.length` elements
of `l2` matter. -/
theorem zip_eq_zip_take {α β : Type} (l1 : List α) (l2 : List β) :
    l1.zip l2 = l1.zip (l2.take l1.length) := by
  induction l1 generalizing l2 with
  | nil => simp
  | cons x xs ih =>
    cases l2 with
    | nil => simp
    | cons y ys => simp [ih ys]

/-- Membership in the row-major index enumeration is coordinatewise
boundedness. -/
theorem mem_allIndices (s : List Nat) : ∀ idx : List Nat,
    idx ∈ allIndices s ↔ List.Forall₂ (· < ·) idx s := by
  induction s with
  | nil =>
    intro idx
    simp [allIndices, List.forall₂_nil_right_iff]
  | cons n rest ih =>
    intro idx
    simp only [allIndices, List.mem_flatMap, List.mem_map, List.mem_range,
      List.forall₂_cons_right_iff]
    constructor
    · rintro ⟨i, hi, t, ht, rfl⟩
      exact ⟨i, t, hi, (ih t).mp ht, rfl⟩
    · rintro ⟨i, t, hi, ht, rfl⟩
      exact ⟨i, hi, t, (ih t).mpr ht, rfl⟩

/-- A coordinatewise-bounded reversed index maps to a flat position below
the shape's total size. -/
theorem flatIndexRev_lt (rs ridx : List Nat) (h : List.Forall₂ (· < ·) ridx rs) :
    flatIndexRev rs ridx < rs.prod := by
  induction h with
  | nil => simp [flatIndexRev]
  | @cons i n irest rest h1 h2 ih =>
    simp only [flatIndexRev, List.prod_cons]
    have hq : flatIndexRev rest irest + 1 ≤ rest.prod := ih
    have h3 : n * (flatIndexRev rest irest + 1) ≤ n * rest.prod :=
      Nat.mul_le_mul (Nat.le_refl n) hq
    have h4 : n * (flatIndexRev rest irest + 1) = n * flatIndexRev rest irest + n := by ring
    omega

/-- Projecting a reversed result index through a shape whose dimensions each
equal the result dimension or 1 yields coordinates bounded by that shape. -/
theorem proj_forall₂_lt (rs rr : List Nat)
    (h1 : List.Forall₂ (fun p q => p = q ∨ p = 1) rs rr) : ∀ ridx : List Nat,
    List.Forall₂ (· < ·) ridx rr →
    List.Forall₂ (· < ·)
      ((rs.zip ridx).map fun p => if p.1 = 1 then 0 else p.2) rs := by
  induction h1 with
  | nil =>
    intro ridx h2
    obtain rfl := List.forall₂_nil_right_iff.mp h2
    exact List.Forall₂.nil
  | @cons p q rs' rr' hpq htl ih =>
    intro ridx h2
    rcases List.forall₂_cons_right_iff.mp h2 with ⟨i, ridx', hi, h2', rfl⟩
    simp only [List.zip_cons_cons, List.map_cons]
    refine List.Forall₂.cons ?_ (ih ridx' h2')
    by_cases hp : p = 1
    · simp [hp]
    · rcases hpq with hpq | hpq
      · rw [if_neg hp, hpq]
        exact hi
      · exact absurd hpq hp

/-- The left operand's reversed shape sits inside the broadcast shape: on
the overlap each dimension equals the broadcast dimension or is 1. -/
theorem bcastRev_left_proj (xs : List Nat) : ∀ ys : List Nat,
    List.Forall₂ (fun p q => p = q ∨ p = 1) xs ((bcastRev xs ys).take xs.length) := by
  induction xs with
  | nil =>
    intro ys
    exact List.Forall₂.nil
  | cons x xs ih =>
    intro ys
    cases ys with
    | nil =>
      have hb : bcastRev (x :: xs) [] = x :: xs := rfl
      rw [hb, List.take_length]
      exact List.forall₂_same.mpr fun a _ => Or.inl rfl
    | cons y ys =>
      simp only [bcastRev, List.length_cons, List.take_succ_cons]
      refine List.Forall₂.cons ?_ (ih ys)
      by_cases hx : x = 1
      · exact Or.inr hx
      · rw [if_neg hx]
        exact Or.inl rfl

/-- The right operand's reversed shape sits inside the broadcast shape when
the two shapes are compatible on their overlap. -/
theorem bcastRev_right_proj (xs : List Nat) : ∀ ys : List Nat,
    ((xs.zip ys).all fun p => p.1 == p.2 || p.1 == 1 || p.2 == 1) = true →
    List.Forall₂ (fun p q => p = q ∨ p = 1) ys ((bcastRev xs ys).take ys.length) := by
  induction xs with
  | nil =>
    intro ys _
    simp only [bcastRev, List.take_length]
    exact List.forall₂_same.mpr fun a _ => Or.inl rfl
  | cons x xs ih =>
    intro ys hc
    cases ys with
    | nil => exact List.Forall₂.nil
    | cons y ys =>
      simp only [List.zip_cons_cons, List.all_cons, Bool.and_eq_true, Bool.or_eq_true,
        beq_iff_eq, or_assoc] at hc
      simp only [bcastRev, List.length_cons, List.take_succ_cons]
      refine List.Forall₂.cons ?_ (ih ys hc.2)
      by_cases hy : y = 1
      · exact Or.inr hy
      · by_cases hx : x = 1
        · rw [if_pos hx]
          exact Or.inl rfl
        · rcases hc.1 with h | h | h
          · rw [if_neg hx]
            exact Or.inl h.symm
          · exact absurd h hx
          · exact absurd h hy

/-- The overlap-compatibility predicate is symmetric in its two shapes. -/
theorem all_compat_swap (xs ys : List Nat) :
    ((xs.zip ys).all fun p => p.1 == p.2 || p.1 == 1 || p.2 == 1) =
      ((ys.zip xs).all fun p => p.1 == p.2 || p.1 == 1 || p.2 == 1) := by
  rw [Bool.eq_iff_iff, all_compat_iff_getD, all_compat_iff_getD]
  constructor
  · intro h i
    rcases h i with h1 | h1 | h1
    exacts [Or.inl h1.symm, Or.inr (Or.inr h1), Or.inr (Or.inl h1)]
  · intro h i
    rcases h i with h1 | h1 | h1
    exacts [Or.inl h1.symm, Or.inr (Or.inr h1), Or.inr (Or.inl h1)]

/-- Broadcast-aware lookup stays inside a well-formed array's flat data. -/
theorem bget_flat_lt (a : NDArray) (rr idx : List Nat)
    (hproj : List.Forall₂ (fun p q => p = q ∨ p = 1) a.shape.reverse
      (rr.take a.shape.reverse.length))
    (hidx : List.Forall₂ (· < ·) idx.reverse rr)
    (hwf : a.data.length = a.shape.prod) :
    flatIndexRev a.shape.reverse
      ((a.shape.reverse.zip idx.reverse).map fun p => if p.1 = 1 then 0 else p.2) <
      a.data.length := by
  rw [zip_eq_zip_take]
  have htake := List.forall₂_take a.shape.reverse.length hidx
  have h3 := proj_forall₂_lt a.shape.reverse (rr.take a.shape.reverse.length) hproj
    (idx.reverse.take a.shape.reverse.length) htake
  have h4 := flatIndexRev_lt _ _ h3
  rw [hwf, ← List.prod_reverse]
  exact h4

/-- Broadcast-aware lookup commutes with an elementwise map over a
well-formed array's data. -/
theorem bget_map_arr (g : Rat → Rat) (a : NDArray) (d : DType) (rr idx : List Nat)
    (hproj : List.Forall₂ (fun p q => p = q ∨ p = 1) a.shape.reverse
      (rr.take a.shape.reverse.length))
    (hidx : List.Forall₂ (· < ·) idx.reverse rr)
    (hwf : a.data.length = a.shape.prod) :
    bget { shape := a.shape, dtype := d, data := a.data.map g } idx = g (bget a idx) := by
  have hlt := bget_flat_lt a rr idx hproj hidx hwf
  have hlt2 : flatIndexRev a.shape.reverse
      ((a.shape.reverse.zip idx.reverse).map fun p => if p.1 = 1 then 0 else p.2) <
      (a.data.map g).length := by simpa using hlt
  simp only [bget]
  rw [List.getD_eq_getElem _ _ hlt2, List.getD_eq_getElem _ _ hlt, List.getElem_map]

/-- On an index bounded by the array's own reversed shape, the size-1
projection is the identity. -/
theorem zip_proj_id (rs : List Nat) : ∀ ridx : List Nat,
    List.Forall₂ (· < ·) ridx rs →
    (rs.zip ridx).map (fun p => if p.1 = 1 then 0 else p.2) = ridx := by
  intro ridx h
  induction h with
  | nil => rfl
  | @cons i n irest rest h1 h2 ih =>
    simp only [List.zip_cons_cons, List.map_cons, ih]
    by_cases hn : n = 1
    · subst hn
      have : i = 0 := by omega
      simp [this]
    · rw [if_neg hn]

/-- Appending one coordinate at the slow end adds its stride-weighted
contribution to the flat index. -/
theorem flatRev_snoc (xs : List Nat) : ∀ (ys : List Nat) (n i : Nat),
    xs.length = ys.length →
    flatIndexRev (xs ++ [n]) (ys ++ [i]) = flatIndexRev xs ys + i * xs.prod := by
  induction xs with
  | nil =>
    intro ys n i hlen
    obtain rfl : ys = [] := List.eq_nil_of_length_eq_zero hlen.symm
    simp [flatIndexRev]
  | cons x xs ih =>
    intro ys n i hlen
    cases ys with
    | nil => simp at hlen
    | cons y ys =>
      simp only [List.cons_append, flatIndexRev, List.prod_cons]
      have h2 : flatIndexRev (xs.append [n]) (ys.append [i]) =
          flatIndexRev xs ys + i * xs.prod := ih ys n i (by simpa using hlen)
      rw [h2]
      ring

/-- Blockwise enumeration of `range (n * P)`: for each `i < n`, the block of
offsets `j + i * P` with `j < P`. -/
theorem range_mul_flatMap (n P : Nat) :
    (List.range n).flatMap (fun i => (List.range P).map fun j => j + i * P) =
      List.range (n * P) := by
  induction n with
  | zero => simp
  | succ n ih =>
    rw [List.range_succ, List.flatMap_append, ih, Nat.succ_mul, List.range_add]
    simp only [List.flatMap_cons, List.flatMap_nil, List.append_nil]
    congr 1
    exact List.map_congr_left fun j _ => Nat.add_comm j (n * P)

/-- Mapping the flat-index function over the row-major enumeration of a
shape yields exactly `range` of the shape's total size, in order. -/
theorem map_flat_allIndices (s : List Nat) :
    (allIndices s).map (fun idx => flatIndexRev s.reverse idx.reverse) =
      List.range s.prod := by
  induction s with
  | nil => rfl
  | cons n rest ih =>
    have hstep : ∀ i, ((allIndices rest).map fun idx => i :: idx).map
        (fun idx => flatIndexRev (n :: rest).reverse idx.reverse) =
        (List.range rest.prod).map fun j => j + i * rest.prod := by
      intro i
      rw [List.map_map]
      have hcong : ∀ idx ∈ allIndices rest,
          flatIndexRev (n :: rest).reverse (i :: idx).reverse =
            flatIndexRev rest.reverse idx.reverse + i * rest.prod := by
        intro idx hidx
        have hlen : idx.length = rest.length :=
          ((mem_allIndices rest idx).mp hidx).length_eq
        have h := flatRev_snoc rest.reverse idx.reverse n i (by simpa using hlen.symm)
        simpa [List.reverse_cons, List.prod_reverse] using h
      calc ((allIndices rest).map
            ((fun idx => flatIndexRev (n :: rest).reverse idx.reverse) ∘ fun idx => i :: idx))
          = (allIndices rest).map
              (fun idx => flatIndexRev rest.reverse idx.reverse + i * rest.prod) :=
            List.map_congr_left fun idx hidx => hcong idx hidx
        _ = ((allIndices rest).map fun idx => flatIndexRev rest.reverse idx.reverse).map
              (fun j => j + i * rest.prod) := by
            rw [List.map_map]
            rfl
        _ = (List.range rest.prod).map fun j => j + i * rest.prod := by rw [ih]
    calc (allIndices (n :: rest)).map (fun idx => flatIndexRev (n :: rest).reverse idx.reverse)
        = (List.range n).flatMap fun i =>
            ((allIndices rest).map fun idx => i :: idx).map
              (fun idx => flatIndexRev (n :: rest).reverse idx.reverse) := by
          rw [allIndices, List.map_flatMap]
      _ = (List.range n).flatMap fun i => (List.range rest.prod).map fun j =>
            j + i * rest.prod :=
          List.flatMap_congr fun i _ => hstep i
      _ = List.range (n * rest.prod) := range_mul_flatMap n rest.prod
      _ = List.range ((n :: rest).prod) := by rw [List.prod_cons]

/-- Reading every position of a list back by `getD` over `range` recovers
the list. -/
theorem map_getD_range {α : Type} (l : List α) (d : α) :
    (List.range l.length).map (fun i => l.getD i d) = l := by
  induction l with
  | nil => rfl
  | cons a t ih =>
    rw [List.length_cons, List.range_succ_eq_map, List.map_cons, List.map_map,
      List.getD_cons_zero]
    congr 1

/-- Mapping broadcast-aware lookup over a well-formed array's own index
enumeration recovers its row-major data. -/
theorem map_bget_allIndices (a : NDArray) (hwf : a.data.length = a.shape.prod) :
    (allIndices a.shape).map (fun idx => bget a idx) = a.data := by
  have h1 : ∀ idx ∈ allIndices a.shape,
      bget a idx = a.data.getD (flatIndexRev a.shape.reverse idx.reverse) 0 := by
    intro idx hidx
    have hfor := (mem_allIndices a.shape idx).mp hidx
    have hrev := List.forall₂_reverse_iff.mpr hfor
    have hp := zip_proj_id a.shape.reverse idx.reverse hrev
    simp only [bget]
    rw [hp]
  rw [List.map_congr_left h1]
  have h2 : (allIndices a.shape).map
      (fun idx => a.data.getD (flatIndexRev a.shape.reverse idx.reverse) 0) =
      ((allIndices a.shape).map (fun idx => flatIndexRev a.shape.reverse idx.reverse)).map
        (fun i => a.data.getD i 0) := by
    rw [List.map_map]
    rfl
  rw [h2, map_flat_allIndices, ← hwf, map_getD_range]

/-- Claim C9: for the same target data and the same resolved (well-formed)
fraction, the land-weighted and sea-weighted data have the same shape and
sum elementwise to the original data — exactly, over exact rational
arithmetic: at every position `data * f + data * (1 - f) = data` — and when
the result shape equals the target shape this is literal equality with the
target's row-major data list. -/
theorem C9_land_plus_sea (cube : Cube) (fx_files : List (String × Option Cube))
    (strict : Bool) (f : NDArray) (errs : List String)
    (hres : _get_land_fraction cube fx_files = (some f, errs))
    (hwf : f.data.length = f.shape.prod) :
    weighting_landsea_fraction cube fx_files "land" strict =
      WeightResult.ok { cube with arr := ndMul cube.arr f } [] ∧
    weighting_landsea_fraction cube fx_files "sea" strict =
      WeightResult.ok { cube with arr := ndMul cube.arr (ndOneMinus f) } [] ∧
    (ndMul cube.arr f).shape = (ndMul cube.arr (ndOneMinus f)).shape ∧
    List.zipWith (· + ·) (ndMul cube.arr f).data (ndMul cube.arr (ndOneMinus f)).data =
      (allIndices (ndMul cube.arr f).shape).map (fun idx => bget cube.arr idx) ∧
    (cube.arr.data.length = cube.arr.shape.prod →
      (ndMul cube.arr f).shape = cube.arr.shape →
      List.zipWith (· + ·) (ndMul cube.arr f).data (ndMul cube.arr (ndOneMinus f)).data =
        cube.arr.data) := by
  obtain ⟨v, c, hmem, hb, hcase⟩ := landFractionLoop_some cube fx_files _ errs f hres
  have hbf : _shape_is_broadcastable f.shape cube.arr.shape = true := by
    rcases hcase with ⟨_, hfe⟩ | ⟨_, hfe⟩ <;> rw [hfe] <;> exact hb
  have hcpair : ((cube.arr.shape.reverse.zip f.shape.reverse).all
      fun p => p.1 == p.2 || p.1 == 1 || p.2 == 1) = true := by
    rw [all_compat_swap]
    exact hbf
  have hproj_f := bcastRev_right_proj cube.arr.shape.reverse f.shape.reverse hcpair
  have hdata : List.zipWith (· + ·) (ndMul cube.arr f).data
      (ndMul cube.arr (ndOneMinus f)).data =
      (allIndices (broadcastShape cube.arr.shape f.shape)).map
        (fun idx => bget cube.arr idx) := by
    show List.zipWith (· + ·)
        ((allIndices (broadcastShape cube.arr.shape f.shape)).map
          fun idx => bget cube.arr idx * bget f idx)
        ((allIndices (broadcastShape cube.arr.shape f.shape)).map
          fun idx => bget cube.arr idx * bget (ndOneMinus f) idx) =
        (allIndices (broadcastShape cube.arr.shape f.shape)).map
          fun idx => bget cube.arr idx
    rw [List.zipWith_map, List.zipWith_same]
    refine List.map_congr_left fun idx hidx => ?_
    have hfor := (mem_allIndices _ idx).mp hidx
    have hrev0 := List.forall₂_reverse_iff.mpr hfor
    have hrev : List.Forall₂ (· < ·) idx.reverse
        (bcastRev cube.arr.shape.reverse f.shape.reverse) := by
      rwa [broadcastShape, List.reverse_reverse] at hrev0
    have h1m : bget (ndOneMinus f) idx = 1 - bget f idx :=
      bget_map_arr (fun x => 1 - x) f DType.float
        (bcastRev cube.arr.shape.reverse f.shape.reverse) idx hproj_f hrev hwf
    rw [h1m]
    ring
  refine ⟨weighting_some_land cube fx_files strict f errs hres,
    weighting_some_sea cube fx_files strict f errs hres, rfl, hdata, ?_⟩
  intro hcwf hshape
  rw [hdata]
  have hsh2 : broadcastShape cube.arr.shape f.shape = cube.arr.shape := hshape
  rw [hsh2]
  exact map_bget_allIndices cube.arr hcwf

/-- Witness for C9 with the `sftlf` fraction over `tasCube`. -/
theorem C9_land_plus_sea_witness :
    weighting_landsea_fraction tasCube [("sftlf", some sftlfCube)] "land" false =
      WeightResult.ok
        { tasCube with arr := ndMul tasCube.arr (ndDiv100 sftlfCube.arr) } [] ∧
    weighting_landsea_fraction tasCube [("sftlf", some sftlfCube)] "sea" false =
      WeightResult.ok
        { tasCube with arr := ndMul tasCube.arr (ndOneMinus (ndDiv100 sftlfCube.arr)) } [] ∧
    (ndMul tasCube.arr (ndDiv100 sftlfCube.arr)).shape =
      (ndMul tasCube.arr (ndOneMinus (ndDiv100 sftlfCube.arr))).shape ∧
    List.zipWith (· + ·) (ndMul tasCube.arr (ndDiv100 sftlfCube.arr)).data
        (ndMul tasCube.arr (ndOneMinus (ndDiv100 sftlfCube.arr))).data =
      (allIndices (ndMul tasCube.arr (ndDiv100 sftlfCube.arr)).shape).map
        (fun idx => bget tasCube.arr idx) ∧
    (tasCube.arr.data.length = tasCube.arr.shape.prod →
      (ndMul tasCube.arr (ndDiv100 sftlfCube.arr)).shape = tasCube.arr.shape →
      List.zipWith (· + ·) (ndMul tasCube.arr (ndDiv100 sftlfCube.arr)).data
          (ndMul tasCube.arr (ndOneMinus (ndDiv100 sftlfCube.arr))).data =
        tasCube.arr.data) :=
  C9_land_plus_sea tasCube [("sftlf", some sftlfCube)] false
    (ndDiv100 sftlfCube.arr) [] rfl (by decide)
